import Mathlib

/-!
A shallow embedding of the Sisenco label generator
(`sisenco_label_generator_v1_1.py`) and proofs about it.

Strings are modelled as `List Char`. Cell values read from the uploaded
table are modelled as `Option (List Char)`: `none` stands for a missing
(NaN) cell, `some s` for a string cell. Python's `str()` on a NaN float
produces the string `"nan"`, which the model reproduces.
-/

/-- Python whitespace test used by `str.strip()` (modelled by
`Char.isWhitespace`: space, tab, newline, carriage return). -/
def isWS (c : Char) : Bool := c.isWhitespace

/-- Python `str.strip()`: remove leading and trailing whitespace. -/
def pyStrip (l : List Char) : List Char :=
  ((l.dropWhile isWS).reverse.dropWhile isWS).reverse

/-- Convenience: the character list of a string literal. -/
def chars (s : String) : List Char := s.data

/-- A table cell: `none` is a missing (NaN) value, `some s` a string. -/
def PyVal : Type := Option (List Char)

instance : DecidableEq PyVal := by
  unfold PyVal; infer_instance

/-- Python `str(v)` on a cell value: a NaN float prints as `"nan"`. -/
def pyStr (v : PyVal) : List Char :=
  match v with
  | none => chars "nan"
  | some s => s

/-- A row of the loaded table: positional cells. -/
def Row : Type := List PyVal

instance : DecidableEq Row := by
  unfold Row; infer_instance

/-- `row.iloc[i]` / `df.iloc[:, i]` cell access (rows are assumed long
enough; an absent position is treated as a missing cell). -/
def cellAt (r : Row) (i : Nat) : PyVal := r.getD i none

/-- Python `str.rfind(',')`: index of the last comma, `none` when there
is no comma (Python returns `-1` there). -/
def rfindComma : List Char → Option Nat
  | [] => none
  | c :: cs =>
    match rfindComma cs with
    | some k => some (k + 1)
    | none => if c = ',' then some 0 else none

/-- `split_address` (source lines 21–33): split an address into two
lines at the last comma if it is too long. The source's default for
`maxLineLength` is 30; callers in this file pass 30 explicitly. -/
def split_address (address : Option (List Char)) (maxLineLength : Nat) :
    List (List Char) :=
  match address with
  | none => [[]]
  | some a =>
    if pyStrip a = [] then [[]]
    else if (pyStrip a).length ≤ maxLineLength then [pyStrip a]
    else
      match rfindComma (pyStrip a) with
      | none => [pyStrip a]
      | some lastComma =>
        [pyStrip ((pyStrip a).take (lastComma + 1)),
         pyStrip ((pyStrip a).drop (lastComma + 1))]

/-- Modelled from the spec's sentence for comparison with the code (this
is the spec's described behaviour, not the source's): find the last comma
at or before the overflow point (within the first `maxLineLength`
characters) and split there. -/
def split_address_specClaimC1 (a : List Char) (maxLineLength : Nat) :
    List (List Char) :=
  match rfindComma ((pyStrip a).take maxLineLength) with
  | none => [pyStrip a]
  | some lastComma =>
    [pyStrip ((pyStrip a).take (lastComma + 1)),
     pyStrip ((pyStrip a).drop (lastComma + 1))]

/-- The two product types offered by the radio control (source lines
150–153): `theory` is the option starting with the green circle emoji,
`paper` the one starting with the blue circle emoji.
`product_type.startswith("🔵")` is modelled as equality with `paper`. -/
inductive ProductType where
  | theory : ProductType
  | paper : ProductType
deriving DecidableEq

/-- Column mapping `(ID, NAME, ADDRESS, MOBILE1, MOBILE2)` chosen from
the product type (source lines 156–159). -/
def colMapFor (pt : ProductType) : Nat × Nat × Nat × Nat × Nat :=
  match pt with
  | .theory => (0, 2, 3, 8, 9)
  | .paper => (0, 2, 3, 7, 8)

/-- Python `str.isdigit()` restricted to ASCII: nonempty and all decimal
digits. -/
def isPyDigit (l : List Char) : Bool := !l.isEmpty && l.all (fun c => c.isDigit)

/-- Python `int(s)` on a digit string. -/
def natOfDigits (l : List Char) : Nat :=
  l.foldl (fun a c => 10 * a + (c.toNat - 48)) 0

/-- Fuel-driven computation of decimal digits (most significant first);
`fuel` only bounds the recursion depth and any `fuel > n` gives the
digits of `n`. -/
def natDigitsGo (fuel n : Nat) : List Char :=
  match fuel with
  | 0 => []
  | fuel + 1 =>
    if n < 10 then [Char.ofNat (48 + n)]
    else natDigitsGo fuel (n / 10) ++ [Char.ofNat (48 + n % 10)]

/-- Decimal digits of a natural number, most significant first (the
digits printed by Python's decimal formatting). -/
def natDigits (n : Nat) : List Char := natDigitsGo (n + 1) n

/-- Python format `f"{n:04d}"`: zero-pad on the left to a minimum width
of 4 digits. -/
def format04d (n : Nat) : List Char :=
  List.replicate (4 - (natDigits n).length) '0' ++ natDigits n

/-- Identifier reformatting (source lines 71–73): under the paper
product type a purely numeric identifier becomes
`"P - "` followed by the 4-zero-padded number; anything else is left
unchanged. -/
def formatStudentId (pt : ProductType) (s : List Char) : List Char :=
  if pt = .paper ∧ isPyDigit s then chars "P - " ++ format04d (natOfDigits s)
  else s

/-- Label line list before blank filtering (source lines 63–82): strip
the five extracted cell values, reformat the identifier, then compose
name, address line(s), nonempty phones, identifier last. -/
def labelLinesRaw (pt : ProductType) (name sid addr m1 m2 : PyVal) :
    List (List Char) :=
  [pyStrip (pyStr name)]
    ++ split_address (some (pyStrip (pyStr addr))) 30
    ++ (if (pyStrip (pyStr m1)).isEmpty then [] else [pyStrip (pyStr m1)])
    ++ (if (pyStrip (pyStr m2)).isEmpty then [] else [pyStrip (pyStr m2)])
    ++ [formatStudentId pt (pyStrip (pyStr sid))]

/-- Lines actually drawn for one record (source lines 84–87): drop blank
lines, then truncate to at most 6. -/
def labelLinesToDraw (pt : ProductType) (name sid addr m1 m2 : PyVal) :
    List (List Char) :=
  ((labelLinesRaw pt name sid addr m1 m2).filter
    (fun line => !(pyStrip line).isEmpty)).take 6

/-- Grid constant (source line 42). -/
def cols_per_page : Nat := 2

/-- Grid constant (source line 43). -/
def rows_per_page : Nat := 8

/-- Page-boundary condition (source line 48): `showPage` is emitted
before drawing the record at `idx` exactly when
`idx > 0 and idx % (cols_per_page * rows_per_page) == 0`. -/
def newPageBefore (idx : Nat) : Bool :=
  decide (0 < idx) && decide (idx % (cols_per_page * rows_per_page) = 0)

/-- Position of the record within its page (source line 51). -/
def posInPage (idx : Nat) : Nat := idx % (cols_per_page * rows_per_page)

/-- Column of the record within its page (source line 52). -/
def colOf (idx : Nat) : Nat := posInPage idx % cols_per_page

/-- Row of the record within its page (source line 53). -/
def rowOf (idx : Nat) : Nat := posInPage idx / cols_per_page

/-- Number of `showPage` calls emitted while rendering the first `n`
records. -/
def showPagesBefore (n : Nat) : Nat :=
  ((List.range n).filter newPageBefore).length

/-- One grid cell: column, row, and the record placed there. -/
abbrev Cell (α : Type) : Type := Nat × Nat × α

/-- The rendering loop (source lines 47–56) viewed as building the list
of pages: `idx` is the flat record index, `done` the finished pages,
`cur` the page currently being drawn; `showPage` closes the current
page. -/
def renderGo {α : Type} (idx : Nat) (done : List (List (Cell α)))
    (cur : List (Cell α)) : List α → List (List (Cell α))
  | [] => done ++ [cur]
  | r :: rs =>
    if newPageBefore idx then
      renderGo (idx + 1) (done ++ [cur]) [(colOf idx, rowOf idx, r)] rs
    else
      renderGo (idx + 1) done (cur ++ [(colOf idx, rowOf idx, r)]) rs

/-- The pages produced by rendering a record list (the canvas starts on
an empty page; `c.save()` closes the last one). -/
def renderPages {α : Type} (records : List α) : List (List (Cell α)) :=
  renderGo 0 [] [] records

/-- Runtime errors the renderer can raise. -/
inductive PyError where
  | zeroDivision : PyError
deriving DecidableEq

/-- Height of an A4 page in points as used by reportlab
(841.8897637795277 as an exact rational; the float's exact value does
not matter to any claim proved here). -/
def a4Height : ℚ := 8418897637795277 / 10000000000000

/-- Cell height (source line 45): page height divided by rows per page. -/
def label_height : ℚ := a4Height / (rows_per_page : ℚ)

/-- Vertical space available for text in a cell (source line 91). -/
def available_height : ℚ := label_height - 12

/-- Line-spacing computation (source line 92):
`min(available_height / line_count, 12)`. Python raises
`ZeroDivisionError` when `line_count` is zero. -/
def lineHeightOf (lineCount : Nat) : Except PyError ℚ :=
  if lineCount = 0 then .error .zeroDivision
  else .ok (min (available_height / (lineCount : ℚ)) 12)

/-- Drawing of one record (source lines 63–103): extract the mapped
cells, compose the label lines, then compute the line spacing (which can
raise). Returns the drawn lines. -/
def drawRecord (pt : ProductType) (colMap : Nat × Nat × Nat × Nat × Nat)
    (row : Row) : Except PyError (List (List Char)) :=
  match colMap with
  | (idC, nameC, addrC, m1C, m2C) =>
    let lines := labelLinesToDraw pt (cellAt row nameC) (cellAt row idC)
      (cellAt row addrC) (cellAt row m1C) (cellAt row m2C)
    match lineHeightOf lines.length with
    | .error e => .error e
    | .ok _ => .ok lines

/-- `create_labels_pdf_with_text` (source lines 36–105) restricted to
its observable text output: draw each selected row in order, aborting
with the first raised error. -/
def create_labels_pdf_with_text (rows : List Row) (pt : ProductType)
    (colMap : Nat × Nat × Nat × Nat × Nat) :
    Except PyError (List (List (List Char))) :=
  rows.mapM (drawRecord pt colMap)

/-- `selected_rows` (source lines 200–202): for each requested
identifier in request order, the rows whose stringified identifier cell
equals it, in source order, all concatenated. -/
def selected_rows (df : List Row) (idCol : Nat) (inputIds : List (List Char)) :
    List Row :=
  (inputIds.map (fun i => df.filter (fun r => pyStr (cellAt r idCol) == i))).flatten

/-- Counterexample address for C1: the last comma (index 37) lies past
the overflow point, yet it is the one the code splits at. -/
def addrTwoCommas : List Char :=
  chars "AAAA, BBBBBBBBBBBBBBBBBBBBBBBBBBBBBBB, C"

/-- Counterexample address for C7: a space follows the split comma, so
the concatenation of the two returned lines is shorter than the
original. -/
def addrSpaceAfterComma : List Char :=
  chars "AAAAAAAAAAAAAAAAAAAAAAAAAAAAA, B"

/-- A row all of whose cells are empty strings. -/
def blankRow : Row := List.replicate 10 (some ([] : List Char))

section StripLemmas

variable {p : Char → Bool} {l : List Char} {c : Char}

theorem dropWhile_head?_not
    (h : (l.dropWhile p).head? = some c) : p c = false := by
  induction l with
  | nil => simp [List.dropWhile] at h
  | cons a as ih =>
    rw [List.dropWhile_cons] at h
    by_cases hpa : p a
    · rw [if_pos hpa] at h
      exact ih h
    · rw [if_neg hpa] at h
      simp at h
      subst h
      exact Bool.eq_false_iff.mpr hpa

theorem dropWhile_eq_self_of_head?
    (h : l.head? = some c) (hc : p c = false) : l.dropWhile p = l := by
  cases l with
  | nil => simp at h
  | cons a as =>
    simp at h
    subst h
    rw [List.dropWhile_cons, if_neg (by simp [hc])]

theorem dropWhile_getLast?_of_ne_nil
    (h : l.dropWhile p ≠ []) : (l.dropWhile p).getLast? = l.getLast? := by
  induction l with
  | nil => simp at h
  | cons a as ih =>
    rw [List.dropWhile_cons]
    by_cases hpa : p a
    · rw [if_pos hpa]
      rw [List.dropWhile_cons, if_pos hpa] at h
      cases as with
      | nil => simp [List.dropWhile] at h
      | cons b bs => rw [ih h, List.getLast?_cons_cons]
    · rw [if_neg hpa]

/-- The first character of a stripped string is not whitespace. -/
theorem pyStrip_head?_not_ws
    (h : (pyStrip l).head? = some c) : isWS c = false := by
  unfold pyStrip at h
  rw [List.head?_reverse] at h
  have hne : (l.dropWhile isWS).reverse.dropWhile isWS ≠ [] := by
    intro hnil
    rw [hnil] at h
    simp at h
  rw [dropWhile_getLast?_of_ne_nil hne, List.getLast?_reverse] at h
  exact dropWhile_head?_not h

/-- The last character of a stripped string is not whitespace. -/
theorem pyStrip_getLast?_not_ws
    (h : (pyStrip l).getLast? = some c) : isWS c = false := by
  unfold pyStrip at h
  rw [List.getLast?_reverse] at h
  exact dropWhile_head?_not h

/-- A string whose first and last characters are not whitespace strips
to itself. -/
theorem pyStrip_eq_self {d : Char}
    (h1 : l.head? = some c) (hc : isWS c = false)
    (h2 : l.getLast? = some d) (hd : isWS d = false) : pyStrip l = l := by
  unfold pyStrip
  rw [dropWhile_eq_self_of_head? h1 hc]
  rw [dropWhile_eq_self_of_head? (by rw [List.head?_reverse]; exact h2) hd]
  exact List.reverse_reverse l

/-- When the last character is not whitespace, stripping only removes
leading whitespace. -/
theorem pyStrip_eq_dropWhile {d : Char}
    (h2 : l.getLast? = some d) (hd : isWS d = false) :
    pyStrip l = l.dropWhile isWS := by
  unfold pyStrip
  by_cases hm : l.dropWhile isWS = []
  · rw [hm]
    simp
  · rw [dropWhile_eq_self_of_head?
      (by rw [List.head?_reverse, dropWhile_getLast?_of_ne_nil hm]; exact h2) hd]
    exact List.reverse_reverse _

theorem pyStrip_sublist (l : List Char) : List.Sublist (pyStrip l) l := by
  unfold pyStrip
  have h1 : List.Sublist ((l.dropWhile isWS).reverse.dropWhile isWS)
      (l.dropWhile isWS).reverse := List.dropWhile_sublist _
  have h2 := h1.reverse
  rw [List.reverse_reverse] at h2
  exact h2.trans (List.dropWhile_sublist _)

theorem mem_of_mem_pyStrip {a : Char} (h : a ∈ pyStrip l) : a ∈ l :=
  (pyStrip_sublist l).subset h

end StripLemmas

section RfindLemmas

theorem rfindComma_eq_none_iff (l : List Char) :
    rfindComma l = none ↔ ',' ∉ l := by
  induction l with
  | nil => simp [rfindComma]
  | cons c cs ih =>
    rw [rfindComma]
    cases hcs : rfindComma cs with
    | some k =>
      have hmem : ',' ∈ cs := by
        by_contra hmem
        rw [ih.mpr hmem] at hcs
        cases hcs
      simp [List.mem_cons, hmem]
    | none =>
      have hmem : ',' ∉ cs := ih.mp hcs
      by_cases hc : c = ','
      · subst hc
        simp [List.mem_cons]
      · simp [hc, hmem, List.mem_cons, Ne.symm hc]

theorem rfindComma_spec {l : List Char} {k : Nat}
    (h : rfindComma l = some k) :
    k < l.length ∧ l[k]? = some ',' ∧
      ∀ j, k < j → l[j]? ≠ some ',' := by
  induction l generalizing k with
  | nil => simp [rfindComma] at h
  | cons c cs ih =>
    rw [rfindComma] at h
    cases hcs : rfindComma cs with
    | some k2 =>
      rw [hcs] at h
      injection h with h
      subst h
      obtain ⟨hlt, hget, hlater⟩ := ih hcs
      refine ⟨by simpa using hlt, by simpa using hget, ?_⟩
      intro j hj
      cases j with
      | zero => omega
      | succ j2 =>
        simp only [List.getElem?_cons_succ]
        exact hlater j2 (by omega)
    | none =>
      rw [hcs] at h
      by_cases hc : c = ','
      · rw [if_pos hc] at h
        injection h with h
        subst h
        refine ⟨by simp, by simpa using hc, ?_⟩
        intro j hj
        cases j with
        | zero => omega
        | succ j2 =>
          simp only [List.getElem?_cons_succ]
          intro hmem
          have : ',' ∈ cs := by
            have := List.getElem?_eq_some.mp hmem
            obtain ⟨hlt, hval⟩ := this
            exact hval ▸ List.getElem_mem hlt
          exact (rfindComma_eq_none_iff cs).mp hcs this
      · rw [if_neg hc] at h
        cases h

theorem rfindComma_isSome_of_mem {l : List Char} (h : ',' ∈ l) :
    ∃ k, rfindComma l = some k := by
  cases hr : rfindComma l with
  | none => exact absurd h ((rfindComma_eq_none_iff l).mp hr)
  | some k => exact ⟨k, rfl⟩

end RfindLemmas


section TakeDropLemmas

theorem head?_take_succ {α : Type} (l : List α) (n : Nat) :
    (l.take (n + 1)).head? = l.head? := by
  cases l <;> simp

theorem getLast?_take_succ {α : Type} {l : List α} {k : Nat} {c : α}
    (h : l[k]? = some c) : (l.take (k + 1)).getLast? = some c := by
  induction l generalizing k with
  | nil => simp at h
  | cons a as ih =>
    cases k with
    | zero =>
      simp at h
      subst h
      simp
    | succ k2 =>
      simp only [List.getElem?_cons_succ] at h
      rw [List.take_succ_cons]
      have ht := ih h
      cases htt : as.take (k2 + 1) with
      | nil =>
        rw [htt] at ht
        simp at ht
      | cons b bs =>
        rw [List.getLast?_cons_cons, ← htt]
        exact ht

theorem getLast?_drop_of_ne_nil {α : Type} {l : List α} {n : Nat}
    (h : l.drop n ≠ []) : (l.drop n).getLast? = l.getLast? := by
  induction l generalizing n with
  | nil => simp at h
  | cons a as ih =>
    cases n with
    | zero => rfl
    | succ n2 =>
      rw [List.drop_succ_cons] at h ⊢
      rw [ih h]
      cases as with
      | nil => simp at h
      | cons b bs => rw [List.getLast?_cons_cons]

end TakeDropLemmas

section SplitAddress

/-- Characterisation of `split_address` on an overlong comma-containing
address: the split happens at the last comma of the whole (stripped)
string, the comma stays at the end of the first line, and the first line
needs no further trimming. -/
theorem split_address_overlong {a : List Char}
    (h1 : 30 < (pyStrip a).length) (h2 : ',' ∈ pyStrip a) :
    ∃ k, k < (pyStrip a).length ∧ (pyStrip a)[k]? = some ',' ∧
      (∀ j, k < j → (pyStrip a)[j]? ≠ some ',') ∧
      split_address (some a) 30 =
        [(pyStrip a).take (k + 1), pyStrip ((pyStrip a).drop (k + 1))] ∧
      ((pyStrip a).take (k + 1)).getLast? = some ',' := by
  obtain ⟨k, hr⟩ := rfindComma_isSome_of_mem h2
  obtain ⟨hk, hget, hlater⟩ := rfindComma_spec hr
  have hne : pyStrip a ≠ [] := by
    intro h
    rw [h] at h1
    simp at h1
  have hlast : ((pyStrip a).take (k + 1)).getLast? = some ',' :=
    getLast?_take_succ hget
  have hsplit : split_address (some a) 30 =
      [pyStrip ((pyStrip a).take (k + 1)), pyStrip ((pyStrip a).drop (k + 1))] := by
    simp only [split_address]
    rw [if_neg hne, if_neg (show ¬((pyStrip a).length ≤ 30) by omega), hr]
  have hheadchar : ∃ c, (pyStrip a).head? = some c ∧ isWS c = false := by
    cases hsa : pyStrip a with
    | nil => exact absurd hsa hne
    | cons c0 rest =>
      refine ⟨c0, by simp, ?_⟩
      exact pyStrip_head?_not_ws (by rw [hsa]; rfl)
  obtain ⟨c0, hc0, hc0ws⟩ := hheadchar
  have hfix : pyStrip ((pyStrip a).take (k + 1)) = (pyStrip a).take (k + 1) := by
    apply pyStrip_eq_self (c := c0) (d := ',')
    · rw [head?_take_succ]
      exact hc0
    · exact hc0ws
    · exact hlast
    · decide
  exact ⟨k, hk, hget, hlater, by rw [hsplit, hfix], hlast⟩

end SplitAddress

/-- C8: the splitter returns exactly one line in each single-line case:
a missing or blank address gives one empty line, an address whose
trimmed form fits in the limit is returned trimmed as one line, and an
address without a comma is returned trimmed as one line regardless of
length. -/
theorem c8_split_single_line :
    split_address none 30 = [[]] ∧
    (∀ a : List Char, pyStrip a = [] → split_address (some a) 30 = [[]]) ∧
    (∀ a : List Char, (pyStrip a).length ≤ 30 →
      split_address (some a) 30 = [pyStrip a]) ∧
    (∀ a : List Char, ',' ∉ a → split_address (some a) 30 = [pyStrip a]) := by
  refine ⟨rfl, ?_, ?_, ?_⟩
  · intro a h
    simp only [split_address]
    rw [if_pos h]
  · intro a h
    by_cases hb : pyStrip a = []
    · simp only [split_address]
      rw [if_pos hb, hb]
    · simp only [split_address]
      rw [if_neg hb, if_pos h]
  · intro a h
    have hmem : ',' ∉ pyStrip a := fun hm => h (mem_of_mem_pyStrip hm)
    have hr : rfindComma (pyStrip a) = none := (rfindComma_eq_none_iff _).mpr hmem
    by_cases hb : pyStrip a = []
    · simp only [split_address]
      rw [if_pos hb, hb]
    · by_cases hlen : (pyStrip a).length ≤ 30
      · simp only [split_address]
        rw [if_neg hb, if_pos hlen]
      · simp only [split_address]
        rw [if_neg hb, if_neg hlen, hr]

/-- Witness for C8 at concrete inputs: a whitespace-only address, a
short address, and a long comma-free address. -/
theorem c8_split_single_line_witness :
    (pyStrip (chars "   ") = [] ∧ split_address (some (chars "   ")) 30 = [[]]) ∧
    ((pyStrip (chars " 12 Main St ")).length ≤ 30 ∧
      split_address (some (chars " 12 Main St ")) 30 = [pyStrip (chars " 12 Main St ")]) ∧
    (',' ∉ chars "AAAAAAAAAAAAAAAAAAAAAAAAAAAAAAAAAAAAAAAA" ∧
      split_address (some (chars "AAAAAAAAAAAAAAAAAAAAAAAAAAAAAAAAAAAAAAAA")) 30 =
        [pyStrip (chars "AAAAAAAAAAAAAAAAAAAAAAAAAAAAAAAAAAAAAAAA")]) :=
  ⟨⟨by decide, c8_split_single_line.2.1 _ (by decide)⟩,
   ⟨by decide, c8_split_single_line.2.2.1 _ (by decide)⟩,
   ⟨by decide, c8_split_single_line.2.2.2 _ (by decide)⟩⟩

/-- C1 fails as stated: on `addrTwoCommas` (40 characters, commas at
indices 4 and 37) the code splits at the last comma of the whole string
(index 37, past the overflow point), not at the last comma at or before
the overflow point; the first returned line has 38 characters. -/
theorem c1_counterexample :
    30 < (pyStrip addrTwoCommas).length ∧ ',' ∈ pyStrip addrTwoCommas ∧
    split_address (some addrTwoCommas) 30 ≠
      split_address_specClaimC1 addrTwoCommas 30 ∧
    ((split_address (some addrTwoCommas) 30).headD []).length = 38 := by
  decide

/-- C1 (amended): for every address whose stripped form exceeds 30
characters and contains a comma, `split_address` returns exactly two
lines, split at the last comma of the whole string (which may lie past
the overflow point), with the comma retained as the last character of
the first line and whitespace trimmed on both lines. -/
theorem c1_split_at_last_comma (a : List Char)
    (h1 : 30 < (pyStrip a).length) (h2 : ',' ∈ pyStrip a) :
    ∃ k, (pyStrip a)[k]? = some ',' ∧
      (∀ j, k < j → (pyStrip a)[j]? ≠ some ',') ∧
      split_address (some a) 30 =
        [(pyStrip a).take (k + 1), pyStrip ((pyStrip a).drop (k + 1))] ∧
      (split_address (some a) 30).length = 2 ∧
      ((pyStrip a).take (k + 1)).getLast? = some ',' := by
  obtain ⟨k, hk, hget, hlater, heq, hlast⟩ := split_address_overlong h1 h2
  exact ⟨k, hget, hlater, heq, by rw [heq]; rfl, hlast⟩

/-- Witness for the amended C1 at `addrSpaceAfterComma`. -/
theorem c1_split_at_last_comma_witness :
    (30 < (pyStrip addrSpaceAfterComma).length ∧ ',' ∈ pyStrip addrSpaceAfterComma) ∧
    (∃ k, (pyStrip addrSpaceAfterComma)[k]? = some ',' ∧
      (∀ j, k < j → (pyStrip addrSpaceAfterComma)[j]? ≠ some ',') ∧
      split_address (some addrSpaceAfterComma) 30 =
        [(pyStrip addrSpaceAfterComma).take (k + 1),
         pyStrip ((pyStrip addrSpaceAfterComma).drop (k + 1))] ∧
      (split_address (some addrSpaceAfterComma) 30).length = 2 ∧
      ((pyStrip addrSpaceAfterComma).take (k + 1)).getLast? = some ',') :=
  ⟨⟨by decide, by decide⟩,
   c1_split_at_last_comma addrSpaceAfterComma (by decide) (by decide)⟩

/-- C7 fails as stated: on `addrSpaceAfterComma` the space after the
split comma is trimmed from the second line, so neither the plain
concatenation of the two lines nor the concatenation with an extra comma
restored reconstructs the trimmed original. -/
theorem c7_counterexample :
    30 < (pyStrip addrSpaceAfterComma).length ∧
    (pyStrip addrSpaceAfterComma)[29]? = some ',' ∧
    (split_address (some addrSpaceAfterComma) 30).length = 2 ∧
    ((split_address (some addrSpaceAfterComma) 30).headD [] ++
      (split_address (some addrSpaceAfterComma) 30).getD 1 []) ≠
        pyStrip addrSpaceAfterComma ∧
    ((split_address (some addrSpaceAfterComma) 30).headD [] ++
      ',' :: (split_address (some addrSpaceAfterComma) 30).getD 1 []) ≠
        pyStrip addrSpaceAfterComma := by
  decide

/-- C7 (amended): for every address whose stripped form exceeds 30
characters and contains a comma, the splitter returns exactly two lines
whose concatenation, with the whitespace that followed the split comma
restored between them, reconstructs the trimmed original. -/
theorem c7_reconstruct (a : List Char)
    (h1 : 30 < (pyStrip a).length) (h2 : ',' ∈ pyStrip a) :
    ∃ l1 l2 ws, split_address (some a) 30 = [l1, l2] ∧
      (∀ c ∈ ws, isWS c = true) ∧ l1 ++ (ws ++ l2) = pyStrip a := by
  obtain ⟨k, hk, hget, hlater, heq, hlast⟩ := split_address_overlong h1 h2
  by_cases hd : (pyStrip a).drop (k + 1) = []
  · refine ⟨(pyStrip a).take (k + 1), pyStrip ((pyStrip a).drop (k + 1)), [],
      heq, by simp, ?_⟩
    rw [hd]
    have hlen : (pyStrip a).length ≤ k + 1 := by
      have := List.drop_eq_nil_iff.mp hd
      omega
    rw [show pyStrip ([] : List Char) = [] from rfl, List.append_nil,
      List.append_nil, List.take_of_length_le hlen]
  · have hlast_d : ((pyStrip a).drop (k + 1)).getLast? = (pyStrip a).getLast? :=
      getLast?_drop_of_ne_nil hd
    have hne : pyStrip a ≠ [] := by
      intro h
      rw [h] at h1
      simp at h1
    obtain ⟨d0, hd0⟩ : ∃ d0, (pyStrip a).getLast? = some d0 := by
      cases hgl : (pyStrip a).getLast? with
      | none => exact absurd (List.getLast?_eq_none_iff.mp hgl) hne
      | some d0 => exact ⟨d0, rfl⟩
    have hd0ws : isWS d0 = false := pyStrip_getLast?_not_ws hd0
    have hstrip_d : pyStrip ((pyStrip a).drop (k + 1)) =
        ((pyStrip a).drop (k + 1)).dropWhile isWS :=
      pyStrip_eq_dropWhile (by rw [hlast_d]; exact hd0) hd0ws
    refine ⟨(pyStrip a).take (k + 1), pyStrip ((pyStrip a).drop (k + 1)),
      ((pyStrip a).drop (k + 1)).takeWhile isWS, heq, ?_, ?_⟩
    · intro c hc
      exact List.mem_takeWhile_imp hc
    · rw [hstrip_d, List.takeWhile_append_dropWhile, List.take_append_drop]

/-- Witness for the amended C7 at `addrTwoCommas`. -/
theorem c7_reconstruct_witness :
    (30 < (pyStrip addrTwoCommas).length ∧ ',' ∈ pyStrip addrTwoCommas) ∧
    (∃ l1 l2 ws, split_address (some addrTwoCommas) 30 = [l1, l2] ∧
      (∀ c ∈ ws, isWS c = true) ∧ l1 ++ (ws ++ l2) = pyStrip addrTwoCommas) :=
  ⟨⟨by decide, by decide⟩, c7_reconstruct addrTwoCommas (by decide) (by decide)⟩

section DigitLemmas

theorem natDigitsGo_congr {f1 f2 n : Nat} (h1 : n < f1) (h2 : n < f2) :
    natDigitsGo f1 n = natDigitsGo f2 n := by
  induction f1 generalizing f2 n with
  | zero => omega
  | succ f ih =>
    cases f2 with
    | zero => omega
    | succ g =>
      by_cases hn : n < 10
      · simp [natDigitsGo, hn]
      · simp only [natDigitsGo, if_neg hn]
        have hdiv : n / 10 < n := Nat.div_lt_self (by omega) (by omega)
        rw [ih (by omega) (show n / 10 < g by omega)]

theorem natDigits_of_lt {n : Nat} (h : n < 10) :
    natDigits n = [Char.ofNat (48 + n)] := by
  unfold natDigits natDigitsGo
  rw [if_pos h]

theorem natDigits_of_ge {n : Nat} (h : 10 ≤ n) :
    natDigits n = natDigits (n / 10) ++ [Char.ofNat (48 + n % 10)] := by
  unfold natDigits
  conv => left; rw [natDigitsGo]
  rw [if_neg (by omega)]
  have hdiv : n / 10 < n := Nat.div_lt_self (by omega) (by omega)
  rw [natDigitsGo_congr (show n / 10 < n by omega) (Nat.lt_succ_self _)]

theorem natDigits_ne_nil (n : Nat) : natDigits n ≠ [] := by
  by_cases h : n < 10
  · rw [natDigits_of_lt h]
    simp
  · rw [natDigits_of_ge (by omega)]
    simp

theorem le_length_natDigits (k : Nat) :
    ∀ n, 10 ^ k ≤ n → k + 1 ≤ (natDigits n).length := by
  induction k with
  | zero =>
    intro n _
    have h := natDigits_ne_nil n
    cases hh : natDigits n with
    | nil => exact absurd hh h
    | cons c cs => simp
  | succ k2 ih =>
    intro n hn
    have h10 : 10 ≤ n := by
      have : (10 : Nat) ^ 1 ≤ 10 ^ (k2 + 1) :=
        Nat.pow_le_pow_right (by omega) (by omega)
      simp at this
      omega
    rw [natDigits_of_ge h10, List.length_append]
    have hdiv : 10 ^ k2 ≤ n / 10 := by
      rw [Nat.le_div_iff_mul_le (by omega)]
      calc 10 ^ k2 * 10 = 10 ^ (k2 + 1) := by rw [pow_succ]
        _ ≤ n := hn
    have := ih (n / 10) hdiv
    simp only [List.length_cons, List.length_nil]
    omega

theorem format04d_of_ge {n : Nat} (h : 10000 ≤ n) :
    format04d n = natDigits n := by
  unfold format04d
  have h5 : 5 ≤ (natDigits n).length :=
    le_length_natDigits 4 n (by norm_num; omega)
  rw [show 4 - (natDigits n).length = 0 by omega]
  simp

end DigitLemmas

/-- C5: under the paper product type a purely numeric identifier is
reformatted as the literal prefix "P - " followed by its numeric value
zero-padded to at least 4 digits — both "0007" and "7" format to
"P - 0007" — and a non-numeric identifier is left unchanged. -/
theorem c5_paper_id_format :
    formatStudentId .paper (chars "0007") = chars "P - 0007" ∧
    formatStudentId .paper (chars "7") = chars "P - 0007" ∧
    (∀ s : List Char, isPyDigit s = true →
      formatStudentId .paper s = chars "P - " ++ format04d (natOfDigits s) ∧
      4 ≤ (format04d (natOfDigits s)).length) ∧
    (∀ s : List Char, isPyDigit s = false → formatStudentId .paper s = s) := by
  refine ⟨by decide, by decide, ?_, ?_⟩
  · intro s h
    constructor
    · unfold formatStudentId
      rw [if_pos ⟨rfl, h⟩]
    · unfold format04d
      rw [List.length_append, List.length_replicate]
      have hnil := natDigits_ne_nil (natOfDigits s)
      have h1 : 1 ≤ (natDigits (natOfDigits s)).length := by
        cases hh : natDigits (natOfDigits s) with
        | nil => exact absurd hh hnil
        | cons c cs => simp
      omega
  · intro s h
    unfold formatStudentId
    rw [if_neg]
    simp [h]

/-- Witness for C5: the general parts applied at "0007" and at the
non-numeric "AB12". -/
theorem c5_paper_id_format_witness :
    (isPyDigit (chars "0007") = true ∧
      formatStudentId .paper (chars "0007") =
        chars "P - " ++ format04d (natOfDigits (chars "0007")) ∧
      4 ≤ (format04d (natOfDigits (chars "0007"))).length) ∧
    (isPyDigit (chars "AB12") = false ∧
      formatStudentId .paper (chars "AB12") = chars "AB12") :=
  ⟨⟨by decide, c5_paper_id_format.2.2.1 (chars "0007") (by decide)⟩,
   ⟨by decide, c5_paper_id_format.2.2.2 (chars "AB12") (by decide)⟩⟩

/-- C10: the 4-digit zero padding is a minimum width, not a cap — a
numeric identifier whose value has more than 4 significant digits keeps
all of them (the formatted tail is the full decimal numeral, at least 5
digits long, never truncated). -/
theorem c10_padding_is_minimum (s : List Char) (h1 : isPyDigit s = true)
    (h2 : 10000 ≤ natOfDigits s) :
    formatStudentId .paper s = chars "P - " ++ natDigits (natOfDigits s) ∧
    5 ≤ (natDigits (natOfDigits s)).length := by
  refine ⟨?_, le_length_natDigits 4 _ (by norm_num; omega)⟩
  unfold formatStudentId
  rw [if_pos ⟨rfl, h1⟩, format04d_of_ge h2]

/-- Witness for C10 at "12345", whose formatted result is "P - 12345". -/
theorem c10_padding_is_minimum_witness :
    (isPyDigit (chars "12345") = true ∧ 10000 ≤ natOfDigits (chars "12345")) ∧
    (formatStudentId .paper (chars "12345") =
        chars "P - " ++ natDigits (natOfDigits (chars "12345")) ∧
      5 ≤ (natDigits (natOfDigits (chars "12345"))).length) ∧
    formatStudentId .paper (chars "12345") = chars "P - 12345" :=
  ⟨⟨by decide, by decide⟩,
   c10_padding_is_minimum (chars "12345") (by decide) (by decide),
   by decide⟩

/-- C2 fails as stated: a missing (NaN) phone cell is stringified by
`str()` to the non-blank text "nan", which does contribute a line to the
label instead of being omitted. -/
theorem c2_counterexample :
    chars "nan" ∈ labelLinesToDraw .theory (some (chars "X")) (some (chars "1"))
      (some (chars "Y")) none (some []) ∧
    labelLinesToDraw .theory (some (chars "X")) (some (chars "1"))
      (some (chars "Y")) none (some []) ≠
      [chars "X", chars "Y", chars "1"] := by
  decide

/-- C2 (amended): blank (whitespace-only) field values are treated as
empty strings during label composition — blank phones contribute no line
at all, and a record whose name, address and phones are all blank composes
exactly as if those fields were empty strings — whereas missing (NaN)
values are stringified to "nan" and kept as label text. -/
theorem c2_blank_fields :
    (∀ (pt : ProductType) (name sid addr : PyVal) (m1 m2 : List Char),
      pyStrip m1 = [] → pyStrip m2 = [] →
      labelLinesRaw pt name sid addr (some m1) (some m2) =
        [pyStrip (pyStr name)] ++ split_address (some (pyStrip (pyStr addr))) 30 ++
          [formatStudentId pt (pyStrip (pyStr sid))]) ∧
    (∀ (pt : ProductType) (sid : PyVal) (n a m1 m2 : List Char),
      pyStrip n = [] → pyStrip a = [] → pyStrip m1 = [] → pyStrip m2 = [] →
      labelLinesToDraw pt (some n) sid (some a) (some m1) (some m2) =
        labelLinesToDraw pt (some []) sid (some []) (some []) (some [])) ∧
    (∀ (pt : ProductType) (name sid addr m2 : PyVal),
      chars "nan" ∈ labelLinesRaw pt name sid addr none m2) := by
  refine ⟨?_, ?_, ?_⟩
  · intro pt name sid addr m1 m2 h1 h2
    simp only [labelLinesRaw, pyStr]
    rw [h1, h2]
    simp
  · intro pt sid n a m1 m2 hn ha h1 h2
    simp only [labelLinesToDraw, labelLinesRaw, pyStr]
    rw [hn, ha, h1, h2]
    rfl
  · intro pt name sid addr m2
    simp only [labelLinesRaw, pyStr]
    have hnan : pyStrip (chars "nan") = chars "nan" := by decide
    rw [hnan]
    have : ¬(chars "nan").isEmpty = true := by decide
    simp only [Bool.not_eq_true] at this
    rw [this]
    simp

/-- Witness for the amended C2: a record with blank phones, and the
blank-field equivalence, at concrete values. -/
theorem c2_blank_fields_witness :
    (pyStrip (chars " ") = [] ∧ pyStrip (chars "") = [] ∧
      labelLinesRaw .theory (some (chars "X")) (some (chars "1"))
          (some (chars "Y")) (some (chars " ")) (some (chars "")) =
        [pyStrip (pyStr (some (chars "X")))] ++
          split_address (some (pyStrip (pyStr (some (chars "Y"))))) 30 ++
          [formatStudentId .theory (pyStrip (pyStr (some (chars "1"))))]) ∧
    labelLinesToDraw .theory (some (chars " ")) (some (chars "1"))
        (some (chars "  ")) (some (chars " ")) (some (chars "")) =
      labelLinesToDraw .theory (some []) (some (chars "1")) (some [])
        (some []) (some []) :=
  ⟨⟨by decide, by decide,
    c2_blank_fields.1 .theory (some (chars "X")) (some (chars "1"))
      (some (chars "Y")) (chars " ") (chars "") (by decide) (by decide)⟩,
   c2_blank_fields.2.1 .theory (some (chars "1")) (chars " ") (chars "  ")
     (chars " ") (chars "") (by decide) (by decide) (by decide) (by decide)⟩

/-- C6: every composed label has at most 6 drawn lines, and every drawn
line is non-blank (nonempty after stripping). -/
theorem c6_line_bounds (pt : ProductType) (name sid addr m1 m2 : PyVal) :
    (labelLinesToDraw pt name sid addr m1 m2).length ≤ 6 ∧
    (labelLinesToDraw pt name sid addr m1 m2).all
      (fun line => !(pyStrip line).isEmpty) = true := by
  constructor
  · unfold labelLinesToDraw
    exact List.length_take_le 6 _
  · rw [List.all_eq_true]
    intro line hline
    have hmem : line ∈ (labelLinesRaw pt name sid addr m1 m2).filter
        (fun line => !(pyStrip line).isEmpty) :=
      List.take_subset 6 _ hline
    exact (List.mem_filter.mp hmem).2

/-- C9: a record whose five fields all strip to the empty string gives
an empty drawn-line list, the line-spacing computation divides by that
zero line count, and PDF generation therefore raises a division-by-zero
error instead of producing a document. -/
theorem c9_division_by_zero :
    labelLinesToDraw .theory (some []) (some []) (some []) (some []) (some []) = [] ∧
    lineHeightOf 0 = Except.error PyError.zeroDivision ∧
    create_labels_pdf_with_text [blankRow] .theory (colMapFor .theory) =
      Except.error PyError.zeroDivision := by
  exact ⟨by decide, rfl, rfl⟩

/-- C3: for a nonempty request list, the selection filter returns
exactly the rows whose stringified identifier cell equals some requested
identifier, concatenated group-by-group in request order; each group is
a sublist of the source (source order preserved) and source duplicates
keep their multiplicity within their group. -/
theorem c3_selected_rows (df : List Row) (idCol : Nat) (ids : List (List Char))
    (hne : ids ≠ []) :
    selected_rows df idCol ids =
      (ids.map (fun i => df.filter (fun r => pyStr (cellAt r idCol) == i))).flatten ∧
    (∀ r : Row, r ∈ selected_rows df idCol ids ↔
      r ∈ df ∧ ∃ i ∈ ids, pyStr (cellAt r idCol) = i) ∧
    (∀ i : List Char,
      List.Sublist (df.filter (fun r => pyStr (cellAt r idCol) == i)) df) ∧
    (∀ (i : List Char) (r : Row), pyStr (cellAt r idCol) = i →
      (df.filter (fun r => pyStr (cellAt r idCol) == i)).count r = df.count r) := by
  refine ⟨rfl, ?_, ?_, ?_⟩
  · intro r
    simp only [selected_rows, List.mem_flatten, List.mem_map]
    constructor
    · rintro ⟨l, ⟨i, hi, rfl⟩, hrl⟩
      have hf := List.mem_filter.mp hrl
      refine ⟨hf.1, i, hi, ?_⟩
      simpa using hf.2
    · rintro ⟨hrdf, i, hi, heq⟩
      exact ⟨_, ⟨i, hi, rfl⟩, List.mem_filter.mpr ⟨hrdf, by simp [heq]⟩⟩
  · intro i
    exact List.filter_sublist df
  · intro i r heq
    exact List.count_filter (by simp [heq])

/-- Witness for C3: source rows with identifiers B, A, B and request
list ["A", "B"] — output is the A row followed by both B rows. -/
theorem c3_selected_rows_witness :
    ([chars "A", chars "B"] ≠ ([] : List (List Char))) ∧
    (([some (chars "A")] : Row) ∈
        selected_rows [[some (chars "B")], [some (chars "A")], [some (chars "B")]]
          0 [chars "A", chars "B"] ↔
      ([some (chars "A")] : Row) ∈
          ([[some (chars "B")], [some (chars "A")], [some (chars "B")]] : List Row) ∧
        ∃ i ∈ [chars "A", chars "B"],
          pyStr (cellAt ([some (chars "A")] : Row) 0) = i) ∧
    selected_rows [[some (chars "B")], [some (chars "A")], [some (chars "B")]]
        0 [chars "A", chars "B"] =
      [[some (chars "A")], [some (chars "B")], [some (chars "B")]] :=
  ⟨by decide,
   (c3_selected_rows [[some (chars "B")], [some (chars "A")], [some (chars "B")]]
     0 [chars "A", chars "B"] (by decide)).2.1 [some (chars "A")],
   by decide⟩

/-- C4: a new page boundary is emitted exactly at a nonzero multiple of
16; within a page record `i` sits in column `(i % 16) % 2` and row
`(i % 16) / 2`; the record at flat index `i` is drawn on page `i / 16`
(page boundaries emitted up to and including index `i` number `i / 16`);
and rendering 17 records produces exactly 2 pages with record 17 (index
16) alone in cell (0,0) of page 2. -/
theorem c4_pagination :
    (∀ i : Nat, newPageBefore i = true ↔ (i ≠ 0 ∧ i % 16 = 0)) ∧
    (∀ i : Nat, colOf i = i % 16 % 2 ∧ rowOf i = i % 16 / 2) ∧
    (∀ i : Nat, showPagesBefore (i + 1) = i / 16) ∧
    (renderPages (List.range 17)).length = 2 ∧
    (renderPages (List.range 17)).getD 1 [] = [(0, 0, 16)] := by
  refine ⟨?_, ?_, ?_, by decide, by decide⟩
  · intro i
    simp only [newPageBefore, cols_per_page, rows_per_page, Bool.and_eq_true,
      decide_eq_true_eq]
    omega
  · intro i
    constructor <;> rfl
  · intro i
    induction i with
    | zero => rfl
    | succ j ih =>
      unfold showPagesBefore at ih ⊢
      rw [List.range_succ, List.filter_append, List.length_append, ih]
      by_cases h : newPageBefore (j + 1) = true
      · have hmod : (j + 1) % 16 = 0 := by
          simp only [newPageBefore, cols_per_page, rows_per_page,
            Bool.and_eq_true, decide_eq_true_eq] at h
          omega
        rw [List.filter_cons_of_pos h, List.filter_nil]
        simp only [List.length_cons, List.length_nil]
        omega
      · have hmod : (j + 1) % 16 ≠ 0 := by
          simp only [newPageBefore, cols_per_page, rows_per_page,
            Bool.and_eq_true, decide_eq_true_eq] at h
          omega
        rw [List.filter_cons_of_neg (by simpa using h), List.filter_nil]
        simp only [List.length_nil]
        omega
